import Mathlib

/-!
Verification of the task-manager's Focus Queue planner, recurrence engine,
recurrence expansion on completion, and the due-time notification sweep.

The development shallowly embeds the TypeScript sources:
  * `src/stores/utils/recurrence.ts`   (`calculateNextDueDate`)
  * the focus-queue service            (`getCachedFocusQueue`,
    `generateAndCacheFocusQueue`, `generateDailyPlan` fallback paths)
  * `src/main.ts`                      (the `TASK_PLAN_DAY` IPC handler)
  * the tasks slice                    (`toggleComplete` recurrence expansion)
  * `src/main/notification-service.ts` (the per-minute due-time sweep)

JavaScript `Date` values are embedded as a calendar date (year, month, day)
plus a millisecond-of-day component; `date-fns` `addDays`/`addWeeks`/
`addMonths` act on the calendar part exactly as the library does (month
addition clamps the day to the target month's length).  `getTime()` is
embedded as `DateTime.toMs` via the standard civil-calendar day count.
-/

namespace TaskManager

/-- Calendar date (local time), mirroring the y/m/d components of a JS `Date`. -/
structure Date where
  year : Int
  month : Nat
  day : Nat
deriving DecidableEq, Repr

/-- Gregorian leap-year test. -/
def isLeapYear (y : Int) : Bool :=
  (y % 4 == 0 && y % 100 != 0) || y % 400 == 0

/-- Number of days in a month of a given year (months are 1-based). -/
def daysInMonth (y : Int) (m : Nat) : Nat :=
  if m = 2 then (if isLeapYear y then 29 else 28)
  else if m = 4 ∨ m = 6 ∨ m = 9 ∨ m = 11 then 30
  else 31

/-- The calendar day after `d`. -/
def Date.next (d : Date) : Date :=
  if d.day < daysInMonth d.year d.month then ⟨d.year, d.month, d.day + 1⟩
  else if d.month < 12 then ⟨d.year, d.month + 1, 1⟩
  else ⟨d.year + 1, 1, 1⟩

/-- Embedding of `date-fns` `addDays` on the calendar part: `n` successive calendar days. -/
def Date.addDays : Nat → Date → Date
  | 0, d => d
  | n + 1, d => Date.addDays n d.next

/-- Embedding of `date-fns` `addMonths`: advance `k` calendar months, clamping the day of
month to the last valid day of the target month. -/
def Date.addMonths (k : Nat) (d : Date) : Date :=
  let t := d.month - 1 + k
  let y := d.year + (t / 12 : Nat)
  let m := t % 12 + 1
  ⟨y, m, min d.day (daysInMonth y m)⟩

/-- Days since 1970-01-01 of a civil date (standard civil-from-days count). -/
def daysFromCivil (d : Date) : Int :=
  let y : Int := if d.month ≤ 2 then d.year - 1 else d.year
  let m : Int := d.month
  let era : Int := y.fdiv 400
  let yoe : Int := y - era * 400
  let doy : Int := (153 * (m + (if 2 < m then -3 else 9)) + 2).fdiv 5 + d.day - 1
  let doe : Int := yoe * 365 + yoe.fdiv 4 - yoe.fdiv 100 + doy
  era * 146097 + doe - 719468

/-- JS `Date.prototype.getDay`: weekday index, 0 = Sunday .. 6 = Saturday
(1970-01-01 was a Thursday, index 4). -/
def Date.getDay (d : Date) : Nat := ((daysFromCivil d + 4).emod 7).toNat

/-- Strict calendar order (lexicographic on year, month, day). -/
def Date.lt (a b : Date) : Prop :=
  a.year < b.year ∨
    (a.year = b.year ∧ (a.month < b.month ∨ (a.month = b.month ∧ a.day < b.day)))

instance (a b : Date) : Decidable (a.lt b) := by
  unfold Date.lt; exact inferInstance

/-- An instant: a calendar date plus milliseconds into that day.  Mirrors a JS
`Date` value interpreted in local time. -/
structure DateTime where
  date : Date
  msOfDay : Nat
deriving DecidableEq, Repr

/-- JS `Date.prototype.getTime` (milliseconds since the epoch). -/
def DateTime.toMs (t : DateTime) : Int :=
  daysFromCivil t.date * 86400000 + t.msOfDay

/-- Embedding of `date-fns` `addDays` (preserves the time of day). -/
def DateTime.addDays (n : Nat) (t : DateTime) : DateTime :=
  ⟨t.date.addDays n, t.msOfDay⟩

/-- Embedding of `date-fns` `addWeeks` (adds `7 * n` days). -/
def DateTime.addWeeks (n : Nat) (t : DateTime) : DateTime :=
  DateTime.addDays (7 * n) t

/-- Embedding of `date-fns` `addMonths` (preserves the time of day). -/
def DateTime.addMonths (k : Nat) (t : DateTime) : DateTime :=
  ⟨t.date.addMonths k, t.msOfDay⟩

/-- Strict instant order: lexicographic on the calendar date, then the time of
day.  On valid dates this coincides with comparison of `toMs`. -/
def DateTime.lt (a b : DateTime) : Prop :=
  a.date.lt b.date ∨ (a.date = b.date ∧ a.msOfDay < b.msOfDay)

instance (a b : DateTime) : Decidable (a.lt b) := by
  unfold DateTime.lt; exact inferInstance

/-- JS `getHours` for an instant. -/
def DateTime.getHours (t : DateTime) : Nat := t.msOfDay / 3600000

/-- JS `getMinutes` for an instant. -/
def DateTime.getMinutes (t : DateTime) : Nat := t.msOfDay % 3600000 / 60000

/-- The `Task.recurrence` values from `src/lib/types.ts`. -/
inductive RecurrenceType where
  | none
  | daily
  | weekly
  | monthly
  | custom
deriving DecidableEq, Repr

/-- Embedding of `calculateNextDueDate` from `src/stores/utils/recurrence.ts`.

`recurrenceDays` embeds the comma-separated day-number string: `Option.none`
for the SQL `null` or the (falsy) empty string, `some l` for the parsed list
of day numbers.  Splitting a non-empty string always yields a non-empty
array, so the inner `[]` case is unreachable from the source's inputs; it is
mapped to the same fallback as an absent day set. -/
def calculateNextDueDate (current : DateTime) (recurrence : RecurrenceType)
    (interval : Nat) (recurrenceDays : Option (List Nat)) : DateTime :=
  match recurrence with
  | .daily => DateTime.addDays interval current
  | .weekly =>
    match recurrenceDays with
    | some days =>
      let currentDay := current.date.getDay
      let sortedDays := days.insertionSort (· ≤ ·)
      match sortedDays.find? (fun d => decide (currentDay < d)) with
      | some nextDay => DateTime.addDays (nextDay - currentDay) current
      | Option.none =>
        match sortedDays with
        | [] => DateTime.addWeeks interval current
        | d0 :: _ =>
          DateTime.addDays (7 - currentDay + d0 + (interval - 1) * 7) current
    | Option.none => DateTime.addWeeks interval current
  | .monthly => DateTime.addMonths interval current
  | .custom => DateTime.addDays interval current
  | .none => current

example : (Date.mk 1970 1 1).getDay = 4 := by decide
example : (Date.mk 2025 1 1).getDay = 3 := by decide
example : (Date.mk 2025 1 3).getDay = 5 := by decide
example : Date.addDays 2 (Date.mk 2025 1 31) = Date.mk 2025 2 2 := by decide
example : Date.addMonths 1 (Date.mk 2025 1 31) = Date.mk 2025 2 28 := by decide

/-- The `Task.priority` values. -/
inductive Priority where
  | low
  | medium
  | high
deriving DecidableEq, Repr

/-- The `Task.status` values. -/
inductive TaskStatus where
  | active
  | completed
deriving DecidableEq, Repr

/-- The `Task` entity of `src/lib/types.ts` (and the mirrored drizzle rows).

`recurrenceDays` embeds the comma-separated weekday string as in
`calculateNextDueDate`; `focusDate` keeps the source's `YYYY-MM-DD` string
representation; `focusOrder` is the nullable integer column. -/
structure Task where
  id : String
  content : String
  notes : Option String
  category : Option String
  priority : Option Priority
  dueDate : Option DateTime
  dueTime : Option String
  recurrence : RecurrenceType
  recurrenceInterval : Nat
  recurrenceDays : Option (List Nat)
  recurrenceEndDate : Option DateTime
  lastNotifiedAt : Option DateTime
  status : TaskStatus
  completedAt : Option DateTime
  createdAt : DateTime
  updatedAt : DateTime
  seriesId : Option String
  estimatedDuration : Option Nat
  difficulty : Option String
  focusDate : Option String
  focusOrder : Option Int
deriving DecidableEq, Repr

/-- The `FocusQueue` interface of `src/lib/types.ts`. -/
structure FocusQueue where
  focusedTaskIds : List String
  reasoning : String
  generatedAt : DateTime
deriving DecidableEq, Repr

/-- The `{ focusedTaskIds, reasoning }` object produced by
`generateDailyPlan`. -/
structure FocusPlan where
  focusedTaskIds : List String
  reasoning : String
deriving DecidableEq, Repr

/-- Insert `x` after every element whose key is `≤ key x`.  This is the
insertion step of a stable sort: elements already in place that compare equal
to `x` stay in front of it. -/
def insertByKey (key : α → Int) (x : α) : List α → List α
  | [] => [x]
  | y :: ys => if key y ≤ key x then y :: insertByKey key x ys else x :: y :: ys

/-- Stable sort by an integer key, processing the input left to right.  This
embeds JS `Array.prototype.sort` with a numeric comparator, which ES2019
requires to be stable. -/
def sortByKey (key : α → Int) (l : List α) : List α :=
  l.foldl (fun acc x => insertByKey key x acc) []

/-- Sort key of `getCachedFocusQueue`: `(t.focusOrder ?? 0)`. -/
def focusKey (t : Task) : Int := t.focusOrder.getD 0

/-- Sort key of the unconfigured-AI fallback in `generateDailyPlan`:
`new Date(t.dueDate || 0).getTime()`. -/
def dueDateKey (t : Task) : Int :=
  match t.dueDate with
  | some d => d.toMs
  | Option.none => 0

/-- Embedding of `generateDailyPlan` from the AI service.  The black-box LLM call is the
`oracle` parameter: `.ok` is a successful `generateObject` response, `.error`
a thrown error (timeout, network, malformed response), and
`anthropicConfigured = false` is the missing-client early return. -/
def generateDailyPlan (anthropicConfigured : Bool)
    (oracle : Except Unit FocusPlan) (tasks : List Task) : FocusPlan :=
  if !anthropicConfigured then
    { focusedTaskIds := ((sortByKey dueDateKey tasks).take 5).map (·.id),
      reasoning := "AI not configured. Showing closest due dates." }
  else
    let candidates := tasks.filter (fun t => decide (t.status = TaskStatus.active))
    match oracle with
    | .ok obj => { focusedTaskIds := obj.focusedTaskIds, reasoning := obj.reasoning }
    | .error _ =>
      { focusedTaskIds := (candidates.take 5).map (·.id),
        reasoning := "AI planning failed. Showing top items." }

/-- Embedding of `getCachedFocusQueue` from the focus-queue service: select the rows with
`focusDate = todayStr`, return `null` when there are none, otherwise sort by
`(focusOrder ?? 0)` ascending and wrap the ids. -/
def getCachedFocusQueue (store : List Task) (todayStr : String)
    (now : DateTime) : Option FocusQueue :=
  let focusedTasks := store.filter (fun t => decide (t.focusDate = some todayStr))
  if focusedTasks.isEmpty then Option.none
  else
    some { focusedTaskIds := (sortByKey focusKey focusedTasks).map (·.id),
           reasoning := "Cached from earlier today",
           generatedAt := now }

/-- The per-id write of the plan-application loops:
`set({ focusDate: todayStr, focusOrder: i }).where(eq(tasks.id, taskId))`. -/
def setFocus (todayStr : String) (i : Nat) (t : Task) : Task :=
  { t with focusDate := some todayStr, focusOrder := some (i : Int) }

/-- The `for (let i = 0; ...)` loop shared by `generateAndCacheFocusQueue`
and the `TASK_PLAN_DAY` handler: for each planned id in order, update the
matching rows with today's focus date and the running index. -/
def applyFocusUpdates (todayStr : String) :
    List Task → List String → Nat → List Task
  | store, [], _ => store
  | store, taskId :: ids, i =>
    applyFocusUpdates todayStr
      (store.map (fun t => if t.id = taskId then setFocus todayStr i t else t))
      ids (i + 1)

/-- The clear step of `generateAndCacheFocusQueue`:
`set({ focusDate: null, focusOrder: null }).where(eq(tasks.focusDate, todayStr))`. -/
def clearFocusForToday (todayStr : String) (store : List Task) : List Task :=
  store.map fun t =>
    if t.focusDate = some todayStr
    then { t with focusDate := Option.none, focusOrder := Option.none }
    else t

/-- Embedding of `generateAndCacheFocusQueue`: plan over the active tasks, clear today's
focus rows, rewrite them from the plan, and return the queue. -/
def generateAndCacheFocusQueue (store : List Task) (todayStr : String)
    (anthropicConfigured : Bool) (oracle : Except Unit FocusPlan)
    (now : DateTime) : List Task × FocusQueue :=
  let activeTasks := store.filter (fun t => decide (t.status = TaskStatus.active))
  let plan := generateDailyPlan anthropicConfigured oracle activeTasks
  let cleared := clearFocusForToday todayStr store
  let store2 := applyFocusUpdates todayStr cleared plan.focusedTaskIds 0
  (store2,
   { focusedTaskIds := plan.focusedTaskIds,
     reasoning := plan.reasoning,
     generatedAt := now })

/-- The `TASK_PLAN_DAY` IPC handler in `src/main.ts`: same planning and the
same write loop, but with no clear step ("Reset focus for today first? Or
just overwrite? Let's overwrite."). -/
def planDayHandler (store : List Task) (todayStr : String)
    (anthropicConfigured : Bool) (oracle : Except Unit FocusPlan) :
    List Task × FocusPlan :=
  let activeTasks := store.filter (fun t => decide (t.status = TaskStatus.active))
  let plan := generateDailyPlan anthropicConfigured oracle activeTasks
  (applyFocusUpdates todayStr store plan.focusedTaskIds 0, plan)

/-- The end-date guard of `toggleComplete`:
`!task.recurrenceEndDate || nextDueDate <= task.recurrenceEndDate`
(JS `Date` comparison is comparison of `getTime()`). -/
def withinEndDate (nextDue : DateTime) (endDate : Option DateTime) : Bool :=
  match endDate with
  | Option.none => true
  | some e => decide (nextDue.toMs ≤ e.toMs)

/-- The duplicate test of `toggleComplete`: an active task with a due date
matching `nextDue` to the millisecond and either the resolved series id or
the completed task's content. -/
def isDuplicateOf (nextDue : DateTime) (nextSeriesId : String)
    (content : String) (t : Task) : Bool :=
  match t.dueDate with
  | Option.none => false
  | some d2 =>
    decide (t.status = TaskStatus.active) && decide (d2.toMs = nextDue.toMs) &&
      (decide (t.seriesId = some nextSeriesId) || decide (t.content = content))

/-- The draft passed to `window.drift.tasks.create` by `toggleComplete`,
materialized by the `TASK_CREATE` handler in `src/main.ts` (which assigns the
fresh id and `createdAt`/`updatedAt`). -/
def newSeriesInstance (task : Task) (nextDue : DateTime) (nextSeriesId : String)
    (freshId : String) (now : DateTime) : Task :=
  { id := freshId
    content := task.content
    notes := task.notes
    category := task.category
    priority := task.priority
    dueDate := some nextDue
    dueTime := task.dueTime
    recurrence := task.recurrence
    recurrenceInterval := task.recurrenceInterval
    recurrenceDays := task.recurrenceDays
    recurrenceEndDate := task.recurrenceEndDate
    lastNotifiedAt := Option.none
    status := TaskStatus.active
    completedAt := Option.none
    createdAt := now
    updatedAt := now
    seriesId := some nextSeriesId
    estimatedDuration := task.estimatedDuration
    difficulty := task.difficulty
    focusDate := Option.none
    focusOrder := Option.none }

/-- The `window.drift.tasks.update(id, updates)` step of `toggleComplete`:
flip `status` and `completedAt` on the rows matching the snapshot's id. -/
def completeStatusUpdate (store : List Task) (task : Task) (now : DateTime) :
    List Task :=
  let isCompleting := task.status = TaskStatus.active
  let newStatus := if isCompleting then TaskStatus.completed else TaskStatus.active
  let newCompletedAt := if isCompleting then some now else Option.none
  store.map fun t =>
    if t.id = task.id
    then { t with status := newStatus, completedAt := newCompletedAt }
    else t

/-- Embedding of `toggleComplete` from the tasks slice, acting on the snapshot `task` the
caller read from the store (in the UI race both calls read the same
still-active snapshot).  The store list conflates the database and the
mirrored zustand state, which `toggleComplete` keeps in sync; `freshId` is
the UUID the `TASK_CREATE` handler would mint. -/
def toggleCompleteOn (store : List Task) (task : Task) (now : DateTime)
    (freshId : String) : List Task :=
  let isCompleting := task.status = TaskStatus.active
  if store.any (fun t => decide (t.id = task.id)) then
    let store1 := completeStatusUpdate store task now
    match task.dueDate with
    | some dd =>
      if isCompleting ∧ task.recurrence ≠ RecurrenceType.none then
        let nextDue := calculateNextDueDate dd task.recurrence
          task.recurrenceInterval task.recurrenceDays
        if withinEndDate nextDue task.recurrenceEndDate then
          let nextSeriesId := task.seriesId.getD task.id
          if store1.any (isDuplicateOf nextDue nextSeriesId task.content)
          then store1
          else newSeriesInstance task nextDue nextSeriesId freshId now :: store1
        else store1
      else store1
    | Option.none => store1
  else store

/-- Embedding of `String(n).padStart(2, '0')` for the sweep's HH:mm formatting. -/
def pad2 (n : Nat) : String := if n < 10 then "0" ++ toString n else toString n

/-- The sweep's `currentTime` string:
`${pad(getHours())}:${pad(getMinutes())}`. -/
def formatHM (now : DateTime) : String :=
  pad2 now.getHours ++ ":" ++ pad2 now.getMinutes

/-- The per-task condition of the due-time sweep in
`scheduleDueTimeCheck`: the task is active (the sweep queries active rows),
has both `dueTime` and `dueDate`, the due date's y/m/d equals today's, the
`dueTime` string equals the current HH:mm, and `lastNotifiedAt` is absent or
at least 60000 ms before `now`. -/
def shouldNotifyDueTime (now : DateTime) (t : Task) : Bool :=
  decide (t.status = TaskStatus.active) &&
    (match t.dueTime, t.dueDate with
     | some tm, some dd =>
       decide (dd.date = now.date) && decide (tm = formatHM now) &&
         (match t.lastNotifiedAt with
          | Option.none => true
          | some ln => decide (60000 ≤ now.toMs - ln.toMs))
     | _, _ => false)

/-- One tick of the per-minute due-time sweep: walk the store in order; for
every task meeting the condition, emit its id (the notification) and set
`lastNotifiedAt := now` in the same step.  Returns the updated store and the
ids notified. -/
def dueTimeSweep (now : DateTime) : List Task → List Task × List String
  | [] => ([], [])
  | t :: ts =>
    let rest := dueTimeSweep now ts
    if shouldNotifyDueTime now t
    then ({ t with lastNotifiedAt := some now } :: rest.1, t.id :: rest.2)
    else (t :: rest.1, rest.2)

theorem Date.lt_trans {a b c : Date} (h1 : a.lt b) (h2 : b.lt c) : a.lt c := by
  unfold Date.lt at *
  omega

theorem Date.lt_next (d : Date) : d.lt d.next := by
  unfold Date.next Date.lt
  split
  · simp
  · split <;> simp

theorem Date.lt_addDays_succ (d : Date) (n : Nat) : d.lt (Date.addDays (n + 1) d) := by
  induction n generalizing d with
  | zero => exact d.lt_next
  | succ m ih =>
    show d.lt (Date.addDays (m + 1) d.next)
    exact Date.lt_trans d.lt_next (ih d.next)

theorem Date.lt_addMonths_of_pos (d : Date) (k : Nat) (hk : 1 ≤ k) :
    d.lt (Date.addMonths k d) := by
  unfold Date.addMonths Date.lt
  simp only
  by_cases h12 : d.month - 1 + k < 12
  · have hdiv : (d.month - 1 + k) / 12 = 0 := Nat.div_eq_of_lt h12
    have hmod : (d.month - 1 + k) % 12 = d.month - 1 + k := Nat.mod_eq_of_lt h12
    rw [hdiv, hmod]
    omega
  · have hdiv : 1 ≤ (d.month - 1 + k) / 12 :=
      (Nat.one_le_div_iff (by omega)).mpr (by omega)
    omega

theorem DateTime.lt_addDays (t : DateTime) (n : Nat) (hn : 1 ≤ n) :
    t.lt (DateTime.addDays n t) := by
  obtain ⟨m, rfl⟩ : ∃ m, n = m + 1 := ⟨n - 1, by omega⟩
  exact Or.inl (t.date.lt_addDays_succ m)

theorem DateTime.lt_addMonths (t : DateTime) (k : Nat) (hk : 1 ≤ k) :
    t.lt (DateTime.addMonths k t) :=
  Or.inl (t.date.lt_addMonths_of_pos k hk)

theorem Date.getDay_lt (d : Date) : d.getDay < 7 := by
  unfold Date.getDay
  have h1 : 0 ≤ (daysFromCivil d + 4).emod 7 := Int.emod_nonneg _ (by decide)
  have h2 : (daysFromCivil d + 4).emod 7 < 7 := Int.emod_lt_of_pos _ (by decide)
  omega

/-- C3: for every date `d`, every recurrence type other than `none`, every
interval `n ≥ 1` and every weekday set, `calculateNextDueDate` returns a
strictly later instant; for the type `none` it returns `d` unchanged. -/
theorem c3_nextDueDate_strictly_advances (d : DateTime)
    (recurrence : RecurrenceType) (interval : Nat)
    (days : Option (List Nat)) (hi : 1 ≤ interval) :
    (recurrence ≠ RecurrenceType.none →
      d.lt (calculateNextDueDate d recurrence interval days)) ∧
    calculateNextDueDate d RecurrenceType.none interval days = d := by
  refine ⟨fun hne => ?_, rfl⟩
  cases recurrence with
  | none => exact absurd rfl hne
  | daily => exact d.lt_addDays interval hi
  | monthly => exact d.lt_addMonths interval hi
  | custom => exact d.lt_addDays interval hi
  | weekly =>
    cases days with
    | none => exact d.lt_addDays (7 * interval) (by omega)
    | some l =>
      simp only [calculateNextDueDate]
      cases hfind : (l.insertionSort (· ≤ ·)).find?
          (fun x => decide (d.date.getDay < x)) with
      | some nextDay =>
        have hgt : d.date.getDay < nextDay := by
          have := List.find?_some hfind
          simpa using this
        exact d.lt_addDays (nextDay - d.date.getDay) (by omega)
      | none =>
        cases hs : l.insertionSort (· ≤ ·) with
        | nil => exact d.lt_addDays (7 * interval) (by omega)
        | cons d0 rest =>
          have hlt : d.date.getDay < 7 := d.date.getDay_lt
          exact d.lt_addDays (7 - d.date.getDay + d0 + (interval - 1) * 7)
            (by omega)

/-- Witness for C3, at a concrete daily task due 2025-01-01 with interval 1. -/
theorem c3_nextDueDate_strictly_advances_witness :
    (1 : Nat) ≤ 1 ∧
      ((RecurrenceType.daily ≠ RecurrenceType.none →
        DateTime.lt ⟨⟨2025, 1, 1⟩, 0⟩
          (calculateNextDueDate ⟨⟨2025, 1, 1⟩, 0⟩ RecurrenceType.daily 1
            (some [1, 3, 5]))) ∧
      calculateNextDueDate ⟨⟨2025, 1, 1⟩, 0⟩ RecurrenceType.none 1
          (some [1, 3, 5]) = ⟨⟨2025, 1, 1⟩, 0⟩) :=
  ⟨by decide,
   c3_nextDueDate_strictly_advances ⟨⟨2025, 1, 1⟩, 0⟩ RecurrenceType.daily 1
     (some [1, 3, 5]) (by decide)⟩

theorem find_min_of_sorted {l : List Nat} {c x : Nat}
    (hsort : l.Sorted (· ≤ ·)) (hx : x ∈ l) (hcx : c < x)
    (hmin : ∀ y ∈ l, c < y → x ≤ y) :
    l.find? (fun d => decide (c < d)) = some x := by
  induction l with
  | nil => cases hx
  | cons y ys ih =>
    have hy := List.rel_of_sorted_cons hsort
    by_cases hcy : c < y
    · have hxy : x = y := by
        have h1 : x ≤ y := hmin y (List.mem_cons_self y ys) hcy
        have h2 : y ≤ x := by
          rcases List.mem_cons.mp hx with rfl | hxys
          · exact le_refl x
          · exact hy x hxys
        exact le_antisymm h1 h2
      rw [List.find?_cons_of_pos _ (by simpa using hcy), hxy]
    · rw [List.find?_cons_of_neg _ (by simpa using hcy)]
      have hxys : x ∈ ys := by
        rcases List.mem_cons.mp hx with rfl | hxys
        · exact absurd hcx hcy
        · exact hxys
      exact ih hsort.of_cons hxys
        (fun y' hy' hcy' => hmin y' (List.mem_cons_of_mem _ hy') hcy')

/-- C2: weekly recurrence with a weekday set: if the set holds an index
strictly greater than the current weekday, the next date is
`current + (nextIndex - currentIndex)` days (interval ignored); otherwise it
wraps by `7 - currentIndex + firstIndex + (interval - 1) * 7` days.
Concretely, Wednesday 2025-01-01 with days {1,3,5} advances 2 days to Friday;
Friday 2025-01-03 advances 3 days at interval 1 and 10 days at interval 2. -/
theorem c2_weekly_recurrence_days_rule (current : DateTime) (interval : Nat)
    (days : List Nat) :
    (∀ x ∈ days, current.date.getDay < x →
      (∀ y ∈ days, current.date.getDay < y → x ≤ y) →
      calculateNextDueDate current RecurrenceType.weekly interval (some days) =
        DateTime.addDays (x - current.date.getDay) current) ∧
    (∀ f ∈ days, (∀ y ∈ days, y ≤ current.date.getDay) →
      (∀ y ∈ days, f ≤ y) →
      calculateNextDueDate current RecurrenceType.weekly interval (some days) =
        DateTime.addDays (7 - current.date.getDay + f + (interval - 1) * 7)
          current) ∧
    calculateNextDueDate ⟨⟨2025, 1, 1⟩, 0⟩ RecurrenceType.weekly 1
        (some [1, 3, 5]) = DateTime.addDays 2 ⟨⟨2025, 1, 1⟩, 0⟩ ∧
    (DateTime.addDays 2 ⟨⟨2025, 1, 1⟩, 0⟩).date.getDay = 5 ∧
    calculateNextDueDate ⟨⟨2025, 1, 3⟩, 0⟩ RecurrenceType.weekly 1
        (some [1, 3, 5]) = DateTime.addDays 3 ⟨⟨2025, 1, 3⟩, 0⟩ ∧
    calculateNextDueDate ⟨⟨2025, 1, 3⟩, 0⟩ RecurrenceType.weekly 2
        (some [1, 3, 5]) = DateTime.addDays 10 ⟨⟨2025, 1, 3⟩, 0⟩ := by
  have hsort := List.sorted_insertionSort (· ≤ ·) days
  have hperm := List.perm_insertionSort (· ≤ ·) days
  refine ⟨fun x hx hcx hmin => ?_, fun f hf hall hfmin => ?_,
    by decide, by decide, by decide, by decide⟩
  · simp only [calculateNextDueDate]
    rw [find_min_of_sorted hsort (hperm.mem_iff.mpr hx) hcx
      (fun y hy => hmin y (hperm.mem_iff.mp hy))]
  · simp only [calculateNextDueDate]
    have hnone : (days.insertionSort (· ≤ ·)).find?
        (fun d => decide (current.date.getDay < d)) = Option.none :=
      List.find?_eq_none.mpr fun y hy => by
        simpa using Nat.not_lt.mpr (hall y (hperm.mem_iff.mp hy))
    rw [hnone]
    have hf' : f ∈ days.insertionSort (· ≤ ·) := hperm.mem_iff.mpr hf
    cases hs : days.insertionSort (· ≤ ·) with
    | nil => rw [hs] at hf'; cases hf'
    | cons d0 rest =>
      have hd0f : d0 = f := by
        refine le_antisymm ?_ (hfmin d0 (hperm.mem_iff.mp (hs ▸ List.mem_cons_self d0 rest)))
        rw [hs] at hf'
        rcases List.mem_cons.mp hf' with rfl | hfr
        · exact le_refl f
        · exact List.rel_of_sorted_cons (hs ▸ hsort) f hfr
      subst hd0f
      rfl

/-- Witness for C2, exercising the strictly-greater branch at Wednesday
2025-01-01 with days {1,3,5} and x = 5. -/
theorem c2_weekly_recurrence_days_rule_witness :
    (5 ∈ [1, 3, 5] ∧ (⟨⟨2025, 1, 1⟩, 0⟩ : DateTime).date.getDay < 5) ∧
      calculateNextDueDate ⟨⟨2025, 1, 1⟩, 0⟩ RecurrenceType.weekly 1
        (some [1, 3, 5]) =
        DateTime.addDays (5 - (⟨⟨2025, 1, 1⟩, 0⟩ : DateTime).date.getDay)
          ⟨⟨2025, 1, 1⟩, 0⟩ :=
  ⟨⟨by decide, by decide⟩,
   (c2_weekly_recurrence_days_rule ⟨⟨2025, 1, 1⟩, 0⟩ 1 [1, 3, 5]).1 5
     (by decide) (by decide) (by decide)⟩

/-- The Unix epoch instant, used as a neutral timestamp in sample data. -/
def epoch : DateTime := ⟨⟨1970, 1, 1⟩, 0⟩

/-- A sample task with every optional field absent, used as the base of the
concrete stores in witnesses and counterexamples. -/
def baseTask : Task :=
  { id := "t", content := "c", notes := Option.none, category := Option.none,
    priority := Option.none, dueDate := Option.none, dueTime := Option.none,
    recurrence := RecurrenceType.none, recurrenceInterval := 1,
    recurrenceDays := Option.none, recurrenceEndDate := Option.none,
    lastNotifiedAt := Option.none, status := TaskStatus.active,
    completedAt := Option.none, createdAt := epoch, updatedAt := epoch,
    seriesId := Option.none, estimatedDuration := Option.none,
    difficulty := Option.none, focusDate := Option.none,
    focusOrder := Option.none }

/-- C9: on a sweep tick at `now`, a task is notified iff it is active, its
due date falls on the current day, its `dueTime` equals the current HH:mm,
and `lastNotifiedAt` is null or at least 60 seconds past; every notified task
gets `lastNotifiedAt := now` in the same step, and a task notified at `now`
is never notified again by a sweep less than 60 seconds later. -/
theorem c9_due_time_sweep_debounce (now : DateTime) (store : List Task) :
    (dueTimeSweep now store).1 =
      store.map (fun t =>
        if shouldNotifyDueTime now t
        then { t with lastNotifiedAt := some now } else t) ∧
    (dueTimeSweep now store).2 =
      (store.filter (shouldNotifyDueTime now)).map (·.id) ∧
    (∀ t : Task, shouldNotifyDueTime now t = true ↔
      (t.status = TaskStatus.active ∧
       ∃ dd tm, t.dueDate = some dd ∧ t.dueTime = some tm ∧
         dd.date = now.date ∧ tm = formatHM now ∧
         (t.lastNotifiedAt = Option.none ∨
          ∃ ln, t.lastNotifiedAt = some ln ∧ 60000 ≤ now.toMs - ln.toMs))) ∧
    (∀ (t : Task) (later : DateTime), later.toMs - now.toMs < 60000 →
      shouldNotifyDueTime later { t with lastNotifiedAt := some now } = false) := by
  refine ⟨?_, ?_, ?_, ?_⟩
  · induction store with
    | nil => rfl
    | cons t ts ih =>
      simp only [dueTimeSweep, List.map_cons]
      by_cases h : shouldNotifyDueTime now t <;> simp [h, ih]
  · induction store with
    | nil => rfl
    | cons t ts ih =>
      simp only [dueTimeSweep, List.filter_cons]
      by_cases h : shouldNotifyDueTime now t <;> simp [h, ih]
  · intro t
    unfold shouldNotifyDueTime
    cases htm : t.dueTime with
    | none => simp [htm]
    | some tm =>
      cases hdd : t.dueDate with
      | none => simp [htm, hdd]
      | some dd =>
        cases hln : t.lastNotifiedAt with
        | none =>
          simp only [htm, hdd, hln, Bool.and_eq_true, decide_eq_true_eq,
            Bool.and_true]
          constructor
          · rintro ⟨hst, h1, h2⟩
            exact ⟨hst, dd, tm, rfl, rfl, h1, h2, Or.inl trivial⟩
          · rintro ⟨hst, dd', tm', hdd', htm', h1, h2, _⟩
            cases hdd'; cases htm'
            exact ⟨hst, h1, h2⟩
        | some ln =>
          simp only [htm, hdd, hln, Bool.and_eq_true, decide_eq_true_eq]
          constructor
          · rintro ⟨hst, ⟨h1, h2⟩, h3⟩
            exact ⟨hst, dd, tm, rfl, rfl, h1, h2, Or.inr ⟨ln, rfl, h3⟩⟩
          · rintro ⟨hst, dd', tm', hdd', htm', h1, h2, h3⟩
            cases hdd'; cases htm'
            refine ⟨hst, ⟨h1, h2⟩, ?_⟩
            rcases h3 with h3 | ⟨ln', hln', h3⟩
            · cases h3
            · cases hln'; exact h3
  · intro t later hlt
    unfold shouldNotifyDueTime
    have hdec : decide (60000 ≤ later.toMs - now.toMs) = false := by
      simp; omega
    cases htm : t.dueTime with
    | none => simp
    | some tm =>
      cases hdd : t.dueDate with
      | none => simp [htm]
      | some dd => simp [htm, hdd, hdec]

/-- A sample task due on 2025-01-01 at 09:30, for the C9 witness. -/
def sweepSampleTask : Task :=
  { baseTask with dueDate := some ⟨⟨2025, 1, 1⟩, 0⟩, dueTime := some "09:30" }

/-- Witness for C9 at a concrete sweep: one active task due 2025-01-01 at
09:30, never notified, swept exactly at 2025-01-01 09:30, then swept again
59 seconds later. -/
theorem c9_due_time_sweep_debounce_witness :
    (dueTimeSweep ⟨⟨2025, 1, 1⟩, 34200000⟩ [sweepSampleTask]).2 = ["t"] ∧
    shouldNotifyDueTime ⟨⟨2025, 1, 1⟩, 34200000⟩ sweepSampleTask = true ∧
    shouldNotifyDueTime ⟨⟨2025, 1, 1⟩, 34200000 + 59000⟩
      { sweepSampleTask with
          lastNotifiedAt := some ⟨⟨2025, 1, 1⟩, 34200000⟩ } = false := by
  have h := c9_due_time_sweep_debounce ⟨⟨2025, 1, 1⟩, 34200000⟩
    [sweepSampleTask]
  refine ⟨?_, by decide, ?_⟩
  · rw [h.2.1]; decide
  · exact h.2.2.2 sweepSampleTask ⟨⟨2025, 1, 1⟩, 34200000 + 59000⟩ (by decide)

theorem completeStatusUpdate_length (store : List Task) (task : Task)
    (now : DateTime) :
    (completeStatusUpdate store task now).length = store.length :=
  List.length_map store _

theorem completeStatusUpdate_any_id (store : List Task) (task : Task)
    (now : DateTime)
    (hmem : store.any (fun t => decide (t.id = task.id)) = true) :
    (completeStatusUpdate store task now).any
      (fun t => decide (t.id = task.id)) = true := by
  obtain ⟨x, hx, hpx⟩ := List.any_eq_true.mp hmem
  have hxid : x.id = task.id := of_decide_eq_true hpx
  refine List.any_eq_true.mpr ⟨_, List.mem_map_of_mem _ hx, ?_⟩
  simp [hxid]

theorem toggleCompleteOn_of_endDate_passed (store : List Task) (task : Task)
    (now : DateTime) (freshId : String) (dd : DateTime)
    (hmem : store.any (fun t => decide (t.id = task.id)) = true)
    (hdd : task.dueDate = some dd)
    (hend : withinEndDate
      (calculateNextDueDate dd task.recurrence task.recurrenceInterval
        task.recurrenceDays) task.recurrenceEndDate = false) :
    toggleCompleteOn store task now freshId =
      completeStatusUpdate store task now := by
  unfold toggleCompleteOn
  by_cases hc : task.status = TaskStatus.active ∧
      task.recurrence ≠ RecurrenceType.none
  · simp [hmem, hdd, hend, hc]
  · simp [hmem, hdd, hc]

theorem toggleCompleteOn_creates (store : List Task) (task : Task)
    (now : DateTime) (freshId : String) (dd : DateTime)
    (hmem : store.any (fun t => decide (t.id = task.id)) = true)
    (hact : task.status = TaskStatus.active)
    (hrec : task.recurrence ≠ RecurrenceType.none)
    (hdd : task.dueDate = some dd)
    (hend : withinEndDate
      (calculateNextDueDate dd task.recurrence task.recurrenceInterval
        task.recurrenceDays) task.recurrenceEndDate = true)
    (hnodup : (completeStatusUpdate store task now).any
      (isDuplicateOf
        (calculateNextDueDate dd task.recurrence task.recurrenceInterval
          task.recurrenceDays)
        (task.seriesId.getD task.id) task.content) = false) :
    toggleCompleteOn store task now freshId =
      newSeriesInstance task
        (calculateNextDueDate dd task.recurrence task.recurrenceInterval
          task.recurrenceDays)
        (task.seriesId.getD task.id) freshId now ::
        completeStatusUpdate store task now := by
  unfold toggleCompleteOn
  simp [hmem, hdd, hend, hact, hrec, hnodup]

theorem toggleCompleteOn_suppressed (store : List Task) (task : Task)
    (now : DateTime) (freshId : String) (dd : DateTime)
    (hmem : store.any (fun t => decide (t.id = task.id)) = true)
    (hact : task.status = TaskStatus.active)
    (hrec : task.recurrence ≠ RecurrenceType.none)
    (hdd : task.dueDate = some dd)
    (hend : withinEndDate
      (calculateNextDueDate dd task.recurrence task.recurrenceInterval
        task.recurrenceDays) task.recurrenceEndDate = true)
    (hdup : (completeStatusUpdate store task now).any
      (isDuplicateOf
        (calculateNextDueDate dd task.recurrence task.recurrenceInterval
          task.recurrenceDays)
        (task.seriesId.getD task.id) task.content) = true) :
    toggleCompleteOn store task now freshId =
      completeStatusUpdate store task now := by
  unfold toggleCompleteOn
  simp [hmem, hdd, hend, hact, hrec, hdup]

theorem newSeriesInstance_id (task : Task) (nextDue : DateTime)
    (sid : String) (freshId : String) (now : DateTime) :
    (newSeriesInstance task nextDue sid freshId now).id = freshId := rfl

theorem isDuplicateOf_newSeriesInstance (task : Task) (nextDue : DateTime)
    (sid : String) (freshId : String) (now : DateTime) :
    isDuplicateOf nextDue sid task.content
      (newSeriesInstance task nextDue sid freshId now) = true := by
  simp [isDuplicateOf, newSeriesInstance]

/-- C4: completing the same still-active snapshot of a recurring task twice
in immediate succession (the UI race) produces exactly one new series
instance: the first completion creates it, and the second is suppressed by
the duplicate test (the created instance matches `nextDue` exactly and
carries the resolved series id), leaving only the status update. -/
theorem c4_double_completion_single_instance (store : List Task) (task : Task)
    (now1 now2 : DateTime) (id1 id2 : String) (dd : DateTime)
    (hmem : store.any (fun t => decide (t.id = task.id)) = true)
    (hact : task.status = TaskStatus.active)
    (hrec : task.recurrence ≠ RecurrenceType.none)
    (hdd : task.dueDate = some dd)
    (hend : withinEndDate
      (calculateNextDueDate dd task.recurrence task.recurrenceInterval
        task.recurrenceDays) task.recurrenceEndDate = true)
    (hnodup : (completeStatusUpdate store task now1).any
      (isDuplicateOf
        (calculateNextDueDate dd task.recurrence task.recurrenceInterval
          task.recurrenceDays)
        (task.seriesId.getD task.id) task.content) = false)
    (hfresh : id1 ≠ task.id) :
    (toggleCompleteOn store task now1 id1).length = store.length + 1 ∧
    toggleCompleteOn (toggleCompleteOn store task now1 id1) task now2 id2 =
      completeStatusUpdate (toggleCompleteOn store task now1 id1) task now2 ∧
    (toggleCompleteOn (toggleCompleteOn store task now1 id1) task now2
      id2).length = store.length + 1 := by
  have h1 := toggleCompleteOn_creates store task now1 id1 dd hmem hact hrec
    hdd hend hnodup
  have hmem1 : (toggleCompleteOn store task now1 id1).any
      (fun t => decide (t.id = task.id)) = true := by
    rw [h1, List.any_cons, completeStatusUpdate_any_id store task now1 hmem]
    simp
  have hcons : completeStatusUpdate
      (newSeriesInstance task
        (calculateNextDueDate dd task.recurrence task.recurrenceInterval
          task.recurrenceDays)
        (task.seriesId.getD task.id) id1 now1 ::
       completeStatusUpdate store task now1) task now2 =
      newSeriesInstance task
        (calculateNextDueDate dd task.recurrence task.recurrenceInterval
          task.recurrenceDays)
        (task.seriesId.getD task.id) id1 now1 ::
      completeStatusUpdate (completeStatusUpdate store task now1) task now2 := by
    simp only [completeStatusUpdate, List.map_cons, newSeriesInstance_id]
    rw [if_neg hfresh]
  have hdup1 : (completeStatusUpdate (toggleCompleteOn store task now1 id1)
      task now2).any
      (isDuplicateOf
        (calculateNextDueDate dd task.recurrence task.recurrenceInterval
          task.recurrenceDays)
        (task.seriesId.getD task.id) task.content) = true := by
    rw [h1, hcons, List.any_cons, isDuplicateOf_newSeriesInstance]
    simp
  have h2 := toggleCompleteOn_suppressed (toggleCompleteOn store task now1 id1)
    task now2 id2 dd hmem1 hact hrec hdd hend hdup1
  refine ⟨?_, h2, ?_⟩
  · rw [h1, List.length_cons, completeStatusUpdate_length]
  · rw [h2, completeStatusUpdate_length, h1, List.length_cons,
      completeStatusUpdate_length]

/-- A sample recurring daily task due 2025-01-01 with no end date, for the
C4 witness. -/
def c4Task : Task :=
  { baseTask with recurrence := RecurrenceType.daily,
                  dueDate := some ⟨⟨2025, 1, 1⟩, 0⟩ }

/-- Witness for C4: completing `c4Task` twice in a simulated race creates
exactly one new instance. -/
theorem c4_double_completion_single_instance_witness :
    (toggleCompleteOn [c4Task] c4Task epoch "n1").length = [c4Task].length + 1 ∧
    toggleCompleteOn (toggleCompleteOn [c4Task] c4Task epoch "n1") c4Task
        epoch "n2" =
      completeStatusUpdate (toggleCompleteOn [c4Task] c4Task epoch "n1")
        c4Task epoch ∧
    (toggleCompleteOn (toggleCompleteOn [c4Task] c4Task epoch "n1") c4Task
        epoch "n2").length = [c4Task].length + 1 :=
  c4_double_completion_single_instance [c4Task] c4Task epoch epoch "n1" "n2"
    ⟨⟨2025, 1, 1⟩, 0⟩ (by decide) (by decide) (by decide) (by decide)
    (by decide) (by decide) (by decide)

/-- A daily task whose computed next due date falls exactly on its
recurrence end date. -/
def c5Task : Task :=
  { baseTask with recurrence := RecurrenceType.daily,
                  dueDate := some ⟨⟨2025, 1, 1⟩, 0⟩,
                  recurrenceEndDate := some ⟨⟨2025, 1, 2⟩, 0⟩ }

/-- Counterexample to C5: for `c5Task` the computed next due date equals
`recurrenceEndDate` exactly, yet completing the task does create a new
active series instance (the code's guard is `nextDue <= recurrenceEndDate`),
contradicting "no new instance is created when the computed next due date
falls exactly on recurrenceEndDate". -/
theorem c5_counterexample_equal_end_date_creates :
    calculateNextDueDate ⟨⟨2025, 1, 1⟩, 0⟩ RecurrenceType.daily 1 Option.none =
      ⟨⟨2025, 1, 2⟩, 0⟩ ∧
    c5Task.recurrenceEndDate = some ⟨⟨2025, 1, 2⟩, 0⟩ ∧
    (toggleCompleteOn [c5Task] c5Task epoch "new").length = 2 ∧
    (toggleCompleteOn [c5Task] c5Task epoch "new").any
      (fun t => decide (t.id = "new") &&
        decide (t.dueDate = some ⟨⟨2025, 1, 2⟩, 0⟩) &&
        decide (t.status = TaskStatus.active)) = true := by
  decide

/-- C5 (amended): with `recurrenceEndDate` set, completing the task produces
no new series instance exactly when the computed next due date is strictly
after the end date; when it is at or before the end date (including exact
equality) a new instance is still created, duplicates permitting. -/
theorem c5_amended_end_date_strictly_after (store : List Task) (task : Task)
    (now : DateTime) (freshId : String) (dd e : DateTime)
    (hmem : store.any (fun t => decide (t.id = task.id)) = true)
    (hdd : task.dueDate = some dd)
    (hende : task.recurrenceEndDate = some e) :
    (e.toMs < (calculateNextDueDate dd task.recurrence task.recurrenceInterval
        task.recurrenceDays).toMs →
      toggleCompleteOn store task now freshId =
        completeStatusUpdate store task now) ∧
    ((calculateNextDueDate dd task.recurrence task.recurrenceInterval
        task.recurrenceDays).toMs ≤ e.toMs →
      task.status = TaskStatus.active →
      task.recurrence ≠ RecurrenceType.none →
      (completeStatusUpdate store task now).any
        (isDuplicateOf
          (calculateNextDueDate dd task.recurrence task.recurrenceInterval
            task.recurrenceDays)
          (task.seriesId.getD task.id) task.content) = false →
      toggleCompleteOn store task now freshId =
        newSeriesInstance task
          (calculateNextDueDate dd task.recurrence task.recurrenceInterval
            task.recurrenceDays)
          (task.seriesId.getD task.id) freshId now ::
          completeStatusUpdate store task now) := by
  constructor
  · intro hlt
    refine toggleCompleteOn_of_endDate_passed store task now freshId dd hmem
      hdd ?_
    rw [hende]
    simp only [withinEndDate, decide_eq_false_iff_not]
    omega
  · intro hle hact hrec hnodup
    refine toggleCompleteOn_creates store task now freshId dd hmem hact hrec
      hdd ?_ hnodup
    rw [hende]
    simp only [withinEndDate, decide_eq_true_eq]
    exact hle

/-- A daily task whose recurrence end date lies strictly before the computed
next due date, for the C5 witness. -/
def c5aTask : Task :=
  { baseTask with recurrence := RecurrenceType.daily,
                  dueDate := some ⟨⟨2025, 1, 1⟩, 0⟩,
                  recurrenceEndDate := some ⟨⟨2025, 1, 1⟩, 43200000⟩ }

/-- Witness for the amended C5: completing `c5aTask` (end date noon
2025-01-01, next due 2025-01-02) performs only the status update. -/
theorem c5_amended_end_date_strictly_after_witness :
    toggleCompleteOn [c5aTask] c5aTask epoch "new" =
      completeStatusUpdate [c5aTask] c5aTask epoch :=
  (c5_amended_end_date_strictly_after [c5aTask] c5aTask epoch "new"
    ⟨⟨2025, 1, 1⟩, 0⟩ ⟨⟨2025, 1, 1⟩, 43200000⟩ (by decide) (by decide)
    (by decide)).1 (by decide)

theorem insertByKey_perm (key : α → Int) (x : α) (l : List α) :
    (insertByKey key x l).Perm (x :: l) := by
  induction l with
  | nil => exact List.Perm.refl _
  | cons y ys ih =>
    unfold insertByKey
    by_cases h : key y ≤ key x
    · simp only [if_pos h]
      exact (ih.cons y).trans (List.Perm.swap x y ys)
    · simp only [if_neg h]
      exact List.Perm.refl _

theorem sortByKey_perm_aux (key : α → Int) (l : List α) :
    ∀ acc : List α,
      (List.foldl (fun acc x => insertByKey key x acc) acc l).Perm
        (acc ++ l) := by
  induction l with
  | nil => intro acc; simp
  | cons x xs ih =>
    intro acc
    exact (ih (insertByKey key x acc)).trans
      (((insertByKey_perm key x acc).append_right xs).trans
        List.perm_middle.symm)

theorem sortByKey_perm (key : α → Int) (l : List α) :
    (sortByKey key l).Perm l := by
  simpa using sortByKey_perm_aux key l []

theorem insertByKey_pairwise (key : α → Int) (x : α) {l : List α}
    (h : l.Pairwise (fun a b => key a ≤ key b)) :
    (insertByKey key x l).Pairwise (fun a b => key a ≤ key b) := by
  induction l with
  | nil => simp [insertByKey]
  | cons y ys ih =>
    obtain ⟨hy, hys⟩ := List.pairwise_cons.mp h
    unfold insertByKey
    by_cases hk : key y ≤ key x
    · simp only [if_pos hk]
      refine List.pairwise_cons.mpr ⟨?_, ih hys⟩
      intro b hb
      rcases List.mem_cons.mp ((insertByKey_perm key x ys).mem_iff.mp hb)
        with rfl | hb
      · exact hk
      · exact hy b hb
    · simp only [if_neg hk]
      refine List.pairwise_cons.mpr ⟨?_, h⟩
      intro b hb
      rcases List.mem_cons.mp hb with rfl | hb
      · exact le_of_lt (not_le.mp hk)
      · exact le_of_lt (lt_of_lt_of_le (not_le.mp hk) (hy b hb))

theorem sortByKey_pairwise_aux (key : α → Int) (l : List α) :
    ∀ acc : List α, acc.Pairwise (fun a b => key a ≤ key b) →
      (List.foldl (fun acc x => insertByKey key x acc) acc l).Pairwise
        (fun a b => key a ≤ key b) := by
  induction l with
  | nil => intro acc h; exact h
  | cons x xs ih =>
    intro acc h
    exact ih (insertByKey key x acc) (insertByKey_pairwise key x h)

theorem sortByKey_pairwise (key : α → Int) (l : List α) :
    (sortByKey key l).Pairwise (fun a b => key a ≤ key b) :=
  sortByKey_pairwise_aux key l [] (List.Pairwise.nil)

/-- Two permutations of the same elements that are both strictly sorted by a
key are equal. -/
theorem eq_of_perm_of_pairwise_lt (key : α → Int) :
    ∀ {l1 l2 : List α}, l1.Perm l2 →
      l1.Pairwise (fun a b => key a < key b) →
      l2.Pairwise (fun a b => key a < key b) → l1 = l2 := by
  intro l1
  induction l1 with
  | nil =>
    intro l2 hp _ _
    exact (hp.symm.eq_nil).symm
  | cons x xs ih =>
    intro l2 hp h1 h2
    have hx2 : x ∈ l2 := hp.mem_iff.mp (List.mem_cons_self x xs)
    cases l2 with
    | nil => cases hx2
    | cons y ys =>
      have hy1 : y ∈ x :: xs := hp.mem_iff.mpr (List.mem_cons_self y ys)
      have hxy : x = y := by
        by_contra hne
        have hxys : x ∈ ys := by
          rcases List.mem_cons.mp hx2 with h | h
          · exact absurd h hne
          · exact h
        have hyxs : y ∈ xs := by
          rcases List.mem_cons.mp hy1 with h | h
          · exact absurd h.symm hne
          · exact h
        have hlt1 : key x < key y := (List.pairwise_cons.mp h1).1 y hyxs
        have hlt2 : key y < key x := (List.pairwise_cons.mp h2).1 x hxys
        omega
      subst hxy
      have hps : xs.Perm ys := hp.cons_inv
      rw [ih hps (List.pairwise_cons.mp h1).2 (List.pairwise_cons.mp h2).2]

/-- The list `[(i, ids[0]), (i+1, ids[1]), ...]` of planned focus indices
paired with the planned ids. -/
def idxPairs : Nat → List String → List (Int × String)
  | _, [] => []
  | i, taskId :: ids => ((i : Int), taskId) :: idxPairs (i + 1) ids

theorem idxPairs_fst_bound : ∀ (i : Nat) (ids : List String),
    ∀ p ∈ idxPairs i ids, (i : Int) ≤ p.1 := by
  intro i ids
  induction ids generalizing i with
  | nil => intro p hp; cases hp
  | cons a rest ih =>
    intro p hp
    rcases List.mem_cons.mp hp with rfl | hp
    · exact le_refl _
    · have := ih (i + 1) p hp
      omega

theorem idxPairs_pairwise (i : Nat) (ids : List String) :
    (idxPairs i ids).Pairwise (fun a b => a.1 < b.1) := by
  induction ids generalizing i with
  | nil => exact List.Pairwise.nil
  | cons a rest ih =>
    refine List.pairwise_cons.mpr ⟨?_, ih (i + 1)⟩
    intro p hp
    have := idxPairs_fst_bound (i + 1) rest p hp
    simp only
    omega

theorem idxPairs_map_snd : ∀ (i : Nat) (ids : List String),
    (idxPairs i ids).map (·.2) = ids := by
  intro i ids
  induction ids generalizing i with
  | nil => rfl
  | cons a rest ih => simp [idxPairs, ih]

theorem idxPairs_length (i : Nat) (ids : List String) :
    (idxPairs i ids).length = ids.length := by
  induction ids generalizing i with
  | nil => rfl
  | cons a rest ih => simp [idxPairs, ih]

theorem idxPairs_mem_indexOf {taskId : String} {ids : List String}
    (h : taskId ∈ ids) (i : Nat) :
    (((i + List.indexOf taskId ids : Nat) : Int), taskId) ∈ idxPairs i ids := by
  induction ids generalizing i with
  | nil => cases h
  | cons a rest ih =>
    by_cases hd : taskId = a
    · subst hd
      rw [List.indexOf_cons_self]
      exact List.mem_cons_self _ _
    · have hmem : taskId ∈ rest := by
        rcases List.mem_cons.mp h with h | h
        · exact absurd h hd
        · exact h
      have hrec := ih hmem (i + 1)
      rw [List.indexOf_cons_ne _ (Ne.symm hd)]
      have harith : (i + (List.indexOf taskId rest).succ : Nat) =
          (i + 1 + List.indexOf taskId rest : Nat) := by omega
      rw [harith]
      exact List.mem_cons_of_mem _ hrec

theorem idxPairs_mem_spec {p : Int × String} {ids : List String}
    (hnd : ids.Nodup) : ∀ i, p ∈ idxPairs i ids →
      p.2 ∈ ids ∧ p.1 = ((i + List.indexOf p.2 ids : Nat) : Int) := by
  induction ids with
  | nil => intro i hp; cases hp
  | cons a rest ih =>
    intro i hp
    obtain ⟨hnotin, hnd'⟩ := List.nodup_cons.mp hnd
    rcases List.mem_cons.mp hp with rfl | hp
    · simp [List.indexOf_cons_self]
    · obtain ⟨hmem, hidx⟩ := ih hnd' (i + 1) hp
      have hne : p.2 ≠ a := fun h => hnotin (h ▸ hmem)
      refine ⟨List.mem_cons_of_mem _ hmem, ?_⟩
      rw [List.indexOf_cons_ne _ (Ne.symm hne), hidx]
      omega

/-- The cumulative effect of the per-id update loop on one row: the function
a row is mapped through when `applyFocusUpdates` processes `ids` from
index `i`. -/
def applyFocusFn (today : String) : List String → Nat → Task → Task
  | [], _, t => t
  | taskId :: ids, i, t =>
    applyFocusFn today ids (i + 1) (if t.id = taskId then setFocus today i t else t)

theorem setFocus_id (today : String) (i : Nat) (t : Task) :
    (setFocus today i t).id = t.id := rfl

theorem applyFocusUpdates_eq_map (today : String) :
    ∀ (ids : List String) (i : Nat) (store : List Task),
      applyFocusUpdates today store ids i =
        store.map (applyFocusFn today ids i) := by
  intro ids
  induction ids with
  | nil =>
    intro i store
    have h : applyFocusFn today [] i = fun t => t := funext fun t => rfl
    rw [applyFocusUpdates, h, List.map_id']
  | cons a rest ih =>
    intro i store
    rw [applyFocusUpdates, ih, List.map_map]
    rfl

theorem applyFocusFn_not_mem (today : String) :
    ∀ (ids : List String) (i : Nat) (t : Task), t.id ∉ ids →
      applyFocusFn today ids i t = t := by
  intro ids
  induction ids with
  | nil => intro i t _; rfl
  | cons a rest ih =>
    intro i t h
    have hne : ¬t.id = a := fun hh => h (hh ▸ List.mem_cons_self a rest)
    have hrest : t.id ∉ rest := fun hh => h (List.mem_cons_of_mem a hh)
    rw [applyFocusFn, if_neg hne]
    exact ih (i + 1) t hrest

theorem applyFocusFn_mem (today : String) :
    ∀ (ids : List String), ids.Nodup → ∀ (t : Task), t.id ∈ ids → ∀ i,
      applyFocusFn today ids i t =
        setFocus today (i + List.indexOf t.id ids) t := by
  intro ids
  induction ids with
  | nil => intro _ t h; cases h
  | cons a rest ih =>
    intro hnd t h i
    obtain ⟨hnotin, hnd'⟩ := List.nodup_cons.mp hnd
    by_cases hd : t.id = a
    · rw [applyFocusFn, if_pos hd]
      have hout : (setFocus today i t).id ∉ rest := by
        rw [setFocus_id, hd]; exact hnotin
      rw [applyFocusFn_not_mem today rest (i + 1) _ hout, hd,
        List.indexOf_cons_self, Nat.add_zero]
    · have hmem : t.id ∈ rest := by
        rcases List.mem_cons.mp h with h | h
        · exact absurd h hd
        · exact h
      rw [applyFocusFn, if_neg hd, ih hnd' t hmem (i + 1),
        List.indexOf_cons_ne _ (Ne.symm hd)]
      have harith : i + 1 + List.indexOf t.id rest =
          i + (List.indexOf t.id rest).succ := by omega
      rw [harith]

theorem applyFocusFn_focusDate (today : String) :
    ∀ (ids : List String) (i : Nat) (t : Task),
      (applyFocusFn today ids i t).focusDate =
        if t.id ∈ ids then some today else t.focusDate := by
  intro ids
  induction ids with
  | nil => intro i t; simp [applyFocusFn]
  | cons a rest ih =>
    intro i t
    by_cases hd : t.id = a
    · rw [applyFocusFn, if_pos hd, ih]
      by_cases hr : (setFocus today i t).id ∈ rest
      · rw [if_pos hr, if_pos (by rw [hd]; exact List.mem_cons_self a rest)]
      · rw [if_neg hr]
        simp [setFocus, hd]
    · rw [applyFocusFn, if_neg hd, ih]
      by_cases hr : t.id ∈ rest
      · rw [if_pos hr, if_pos (List.mem_cons_of_mem a hr)]
      · rw [if_neg hr, if_neg (by
          intro hh
          rcases List.mem_cons.mp hh with hh | hh
          · exact hd hh
          · exact hr hh)]

theorem applyFocusFn_id (today : String) :
    ∀ (ids : List String) (i : Nat) (t : Task),
      (applyFocusFn today ids i t).id = t.id := by
  intro ids
  induction ids with
  | nil => intro i t; rfl
  | cons a rest ih =>
    intro i t
    rw [applyFocusFn, ih]
    by_cases hd : t.id = a
    · rw [if_pos hd, setFocus_id]
    · rw [if_neg hd]

theorem clearFocus_elem_id (today : String) (t : Task) :
    ((if t.focusDate = some today
      then { t with focusDate := Option.none, focusOrder := Option.none }
      else t) : Task).id = t.id := by
  split <;> rfl

theorem store2_eq_map (today : String) (ids : List String) (store : List Task) :
    applyFocusUpdates today (clearFocusForToday today store) ids 0 =
      store.map (fun t => applyFocusFn today ids 0
        (if t.focusDate = some today
         then { t with focusDate := Option.none, focusOrder := Option.none }
         else t)) := by
  rw [applyFocusUpdates_eq_map, clearFocusForToday, List.map_map]
  rfl

theorem G_focusDate_iff (today : String) (ids : List String) (t : Task) :
    ((applyFocusFn today ids 0
        (if t.focusDate = some today
         then { t with focusDate := Option.none, focusOrder := Option.none }
         else t)).focusDate = some today) ↔ t.id ∈ ids := by
  rw [applyFocusFn_focusDate, clearFocus_elem_id]
  by_cases hm : t.id ∈ ids
  · simp [hm]
  · rw [if_neg hm]
    simp only [hm, iff_false]
    by_cases hc : t.focusDate = some today
    · simp [if_pos hc]
    · rw [if_neg hc]; exact hc

theorem G_of_mem (today : String) {ids : List String} (hnd : ids.Nodup)
    {t : Task} (hm : t.id ∈ ids) :
    applyFocusFn today ids 0
        (if t.focusDate = some today
         then { t with focusDate := Option.none, focusOrder := Option.none }
         else t) =
      setFocus today (List.indexOf t.id ids)
        (if t.focusDate = some today
         then { t with focusDate := Option.none, focusOrder := Option.none }
         else t) := by
  have h := applyFocusFn_mem today ids hnd
    (if t.focusDate = some today
     then { t with focusDate := Option.none, focusOrder := Option.none }
     else t) (by rw [clearFocus_elem_id]; exact hm) 0
  rw [clearFocus_elem_id] at h
  rw [h, Nat.zero_add]

theorem idxPairs_map_some_fst : ∀ (i : Nat) (ids : List String),
    (idxPairs i ids).map (fun pr => some pr.1) =
      (List.range ids.length).map (fun j => some ((i + j : Nat) : Int)) := by
  intro i ids
  induction ids generalizing i with
  | nil => rfl
  | cons a rest ih =>
    show (some (i : Int)) :: (idxPairs (i + 1) rest).map (fun pr => some pr.1) = _
    rw [ih (i + 1)]
    simp only [List.length_cons, List.range_succ_eq_map, List.map_cons,
      List.map_map]
    refine congrArg₂ _ (by simp) ?_
    apply List.map_congr_left
    intro j _
    simp only [Function.comp]
    refine congrArg _ (congrArg _ ?_)
    omega

/-- A list of tasks that is sorted by `(focusOrder ?? 0)` and whose
key-id pairs are a permutation of a strictly key-sorted pair list equals
that pair list after pairing. -/
theorem sorted_pairs_strict {S : List Task} {C : List (Int × String)}
    (hperm : (S.map (fun t => (focusKey t, t.id))).Perm C)
    (hle : S.Pairwise (fun a b => focusKey a ≤ focusKey b))
    (hCstrict : C.Pairwise (fun a b => a.1 < b.1)) :
    S.map (fun t => (focusKey t, t.id)) = C := by
  have hCfst : (C.map (fun pr : Int × String => pr.1)).Pairwise
      (fun a b => a < b) := by
    rw [List.pairwise_map]
    exact hCstrict
  have hCfst_nodup : (C.map (fun pr : Int × String => pr.1)).Nodup :=
    hCfst.imp fun hab heq => absurd (heq ▸ hab) (lt_irrefl _)
  have hfst_nodup : (((S.map (fun t => (focusKey t, t.id))).map
      (fun pr : Int × String => pr.1))).Nodup :=
    (List.Perm.nodup_iff (hperm.map _)).mpr hCfst_nodup
  have h1 : (S.map (fun t => (focusKey t, t.id))).Pairwise
      (fun a b => a.1 ≤ b.1) := by
    rw [List.pairwise_map]
    exact hle
  have h2 : (S.map (fun t => (focusKey t, t.id))).Pairwise
      (fun a b => a.1 ≠ b.1) := by
    have h3 : (((S.map (fun t => (focusKey t, t.id))).map
        (fun pr : Int × String => pr.1))).Pairwise (fun a b => a ≠ b) :=
      hfst_nodup
    rw [List.pairwise_map] at h3
    exact h3
  exact eq_of_perm_of_pairwise_lt (fun pr : Int × String => pr.1) hperm
    (h1.imp₂ (fun a b hle' hne => lt_of_le_of_ne hle' hne) h2) hCstrict

/-- Core characterization of the clear-then-rewrite focus persistence: with a
duplicate-free plan whose ids all exist in a duplicate-free store, the rows
flagged for today after the write are exactly the planned rows; sorted by
`(focusOrder ?? 0)` their ids reproduce the plan, and their focus orders are
a permutation of `0 .. N-1`. -/
theorem focusWrite_spec (store : List Task) (today : String)
    (ids : List String) (hids : ids.Nodup)
    (hstore : (store.map (fun t => t.id)).Nodup)
    (hex : ∀ taskId ∈ ids, ∃ t ∈ store, t.id = taskId) :
    ((sortByKey focusKey
        ((applyFocusUpdates today (clearFocusForToday today store) ids
          0).filter (fun t => decide (t.focusDate = some today)))).map
      (fun t => t.id)) = ids ∧
    ((applyFocusUpdates today (clearFocusForToday today store) ids 0).filter
      (fun t => decide (t.focusDate = some today))).length = ids.length ∧
    (((applyFocusUpdates today (clearFocusForToday today store) ids 0).filter
        (fun t => decide (t.focusDate = some today))).map
      (fun t => t.focusOrder)).Perm
      ((List.range ids.length).map
        (fun j => (some (Int.ofNat j) : Option Int))) := by
  have hfilter : (applyFocusUpdates today (clearFocusForToday today store)
      ids 0).filter (fun t => decide (t.focusDate = some today)) =
      (store.filter (fun t => decide (t.id ∈ ids))).map
        (fun t => applyFocusFn today ids 0
          (if t.focusDate = some today
           then { t with focusDate := Option.none, focusOrder := Option.none }
           else t)) := by
    rw [store2_eq_map, List.filter_map]
    refine congrArg _ (List.filter_congr ?_)
    intro t _
    simp only [Function.comp]
    exact decide_eq_decide.mpr (G_focusDate_iff today ids t)
  have hpair : ((applyFocusUpdates today (clearFocusForToday today store)
      ids 0).filter (fun t => decide (t.focusDate = some today))).map
        (fun t => (focusKey t, t.id)) =
      (store.filter (fun t => decide (t.id ∈ ids))).map
        (fun t => ((List.indexOf t.id ids : Int), t.id)) := by
    rw [hfilter, List.map_map]
    apply List.map_congr_left
    intro t ht
    have hm : t.id ∈ ids := of_decide_eq_true (List.mem_filter.mp ht).2
    simp only [Function.comp]
    rw [G_of_mem today hids hm]
    refine Prod.ext rfl ?_
    show ((if t.focusDate = some today
      then { t with focusDate := Option.none, focusOrder := Option.none }
      else t) : Task).id = t.id
    exact clearFocus_elem_id today t
  have hmemiff : ∀ pr : Int × String,
      pr ∈ ((applyFocusUpdates today (clearFocusForToday today store) ids
        0).filter (fun t => decide (t.focusDate = some today))).map
        (fun t => (focusKey t, t.id)) ↔ pr ∈ idxPairs 0 ids := by
    intro pr
    rw [hpair]
    constructor
    · intro h
      obtain ⟨t, ht, rfl⟩ := List.mem_map.mp h
      have hm : t.id ∈ ids := of_decide_eq_true (List.mem_filter.mp ht).2
      simpa using idxPairs_mem_indexOf hm 0
    · intro h
      obtain ⟨hm2, hfst⟩ := idxPairs_mem_spec hids 0 h
      obtain ⟨t, ht, hid⟩ := hex pr.2 hm2
      refine List.mem_map.mpr ⟨t, List.mem_filter.mpr ⟨ht, by
        simp [hid, hm2]⟩, ?_⟩
      refine Prod.ext ?_ hid
      show ((List.indexOf t.id ids : Nat) : Int) = pr.1
      rw [hid, hfst]
      simp
  have hfilter_ids_nodup :
      ((store.filter (fun t => decide (t.id ∈ ids))).map
        (fun t => t.id)).Nodup :=
    ((List.filter_sublist store).map (fun t => t.id)).nodup hstore
  have hnodupF : (((applyFocusUpdates today (clearFocusForToday today store)
      ids 0).filter (fun t => decide (t.focusDate = some today))).map
        (fun t => (focusKey t, t.id))).Nodup := by
    rw [hpair]
    refine List.Nodup.of_map (fun pr : Int × String => pr.2) ?_
    rw [List.map_map]
    exact hfilter_ids_nodup
  have hC_strict : (idxPairs 0 ids).Pairwise (fun a b => a.1 < b.1) :=
    idxPairs_pairwise 0 ids
  have hnodupC : (idxPairs 0 ids).Nodup :=
    hC_strict.imp fun hab heq => absurd (heq ▸ hab) (lt_irrefl _)
  have hpermFC : (((applyFocusUpdates today (clearFocusForToday today store)
      ids 0).filter (fun t => decide (t.focusDate = some today))).map
        (fun t => (focusKey t, t.id))).Perm (idxPairs 0 ids) :=
    List.perm_of_nodup_nodup_toFinset_eq hnodupF hnodupC
      (Finset.ext fun pr => by
        simp only [List.mem_toFinset]
        exact hmemiff pr)
  have hS_perm := sortByKey_perm focusKey
    ((applyFocusUpdates today (clearFocusForToday today store) ids 0).filter
      (fun t => decide (t.focusDate = some today)))
  have hSpair_perm := (hS_perm.map (fun t : Task => (focusKey t, t.id))).trans
    hpermFC
  have hfinal : (sortByKey focusKey
      ((applyFocusUpdates today (clearFocusForToday today store) ids
        0).filter (fun t => decide (t.focusDate = some today)))).map
        (fun t : Task => (focusKey t, t.id)) = idxPairs 0 ids :=
    sorted_pairs_strict hSpair_perm (sortByKey_pairwise focusKey _) hC_strict
  refine ⟨?_, ?_, ?_⟩
  · have := congrArg (List.map (fun pr : Int × String => pr.2)) hfinal
    rw [List.map_map, idxPairs_map_snd] at this
    exact this
  · have := hpermFC.length_eq
    rw [List.length_map, idxPairs_length] at this
    exact this
  · have horders : ((applyFocusUpdates today (clearFocusForToday today store)
        ids 0).filter (fun t => decide (t.focusDate = some today))).map
          (fun t => t.focusOrder) =
        (((applyFocusUpdates today (clearFocusForToday today store) ids
          0).filter (fun t => decide (t.focusDate = some today))).map
          (fun t => (focusKey t, t.id))).map (fun pr => some pr.1) := by
      rw [hfilter, List.map_map, List.map_map, List.map_map]
      apply List.map_congr_left
      intro t ht
      have hm : t.id ∈ ids := of_decide_eq_true (List.mem_filter.mp ht).2
      simp only [Function.comp]
      rw [G_of_mem today hids hm]
      rfl
    rw [horders]
    have := hpermFC.map (fun pr : Int × String => some pr.1)
    rw [idxPairs_map_some_fst] at this
    refine this.trans ?_
    refine List.Perm.of_eq (List.map_congr_left ?_)
    intro j _
    simp

/-- C1: after `generateAndCacheFocusQueue` persists an oracle result of N
distinct ids that all exist in the store, a `getCachedFocusQueue` call on
the same day returns exactly those N ids in the same order (and the generate
call returns the oracle ids and rationale verbatim). -/
theorem c1_focus_queue_round_trip (store : List Task) (today : String)
    (ids : List String) (reason : String) (now later : DateTime)
    (hids : ids.Nodup) (hne : ids ≠ [])
    (hstore : (store.map (fun t => t.id)).Nodup)
    (hex : ∀ taskId ∈ ids, ∃ t ∈ store, t.id = taskId) :
    (generateAndCacheFocusQueue store today true (Except.ok ⟨ids, reason⟩)
      now).2 = ⟨ids, reason, now⟩ ∧
    getCachedFocusQueue
        (generateAndCacheFocusQueue store today true (Except.ok ⟨ids, reason⟩)
          now).1 today later =
      some ⟨ids, "Cached from earlier today", later⟩ := by
  obtain ⟨h1, h2, _⟩ := focusWrite_spec store today ids hids hstore hex
  refine ⟨rfl, ?_⟩
  have hstore1 : (generateAndCacheFocusQueue store today true
      (Except.ok ⟨ids, reason⟩) now).1 =
      applyFocusUpdates today (clearFocusForToday today store) ids 0 := rfl
  rw [hstore1]
  have hcond : ¬ (((applyFocusUpdates today (clearFocusForToday today store)
      ids 0).filter (fun t => decide (t.focusDate = some today))).isEmpty =
      true) := by
    intro habs
    have hnil := List.isEmpty_iff.mp habs
    rw [hnil] at h2
    exact hne (List.length_eq_zero.mp h2.symm)
  simp only [getCachedFocusQueue]
  rw [if_neg hcond, h1]

/-- A sample active task with id `a`. -/
def taskA : Task := { baseTask with id := "a" }

/-- A sample active task with id `b`. -/
def taskB : Task := { baseTask with id := "b" }

/-- Witness for C1: caching the plan `["b", "a"]` over the two-task store
`[taskA, taskB]` and reading it back the same day returns `["b", "a"]`. -/
theorem c1_focus_queue_round_trip_witness :
    (generateAndCacheFocusQueue [taskA, taskB] "2025-01-02" true
      (Except.ok ⟨["b", "a"], "r"⟩) epoch).2 = ⟨["b", "a"], "r", epoch⟩ ∧
    getCachedFocusQueue
        (generateAndCacheFocusQueue [taskA, taskB] "2025-01-02" true
          (Except.ok ⟨["b", "a"], "r"⟩) epoch).1 "2025-01-02" epoch =
      some ⟨["b", "a"], "Cached from earlier today", epoch⟩ :=
  c1_focus_queue_round_trip [taskA, taskB] "2025-01-02" ["b", "a"] "r" epoch
    epoch (by decide) (by decide) (by decide) (by decide)

/-- A task flagged for 2025-01-02 with a null `focusOrder`. -/
def cacheA : Task := { baseTask with id := "a", focusDate := some "2025-01-02" }

/-- A task flagged for 2025-01-02 with `focusOrder` 1. -/
def cacheB : Task :=
  { baseTask with id := "b", focusDate := some "2025-01-02",
                  focusOrder := some 1 }

/-- A task flagged for 2025-01-02 with `focusOrder` 0 and id `z`. -/
def tieZ : Task :=
  { baseTask with id := "z", focusDate := some "2025-01-02",
                  focusOrder := some 0 }

/-- A task flagged for 2025-01-02 with `focusOrder` 0 and id `y`. -/
def tieY : Task :=
  { baseTask with id := "y", focusDate := some "2025-01-02",
                  focusOrder := some 0 }

/-- Counterexample to C6: the code sorts with `(focusOrder ?? 0)`, so a null
`focusOrder` is treated as 0 and sorted first, not as +infinity sorted last
(`["a", "b"]` instead of the claimed `["b", "a"]`); and ties keep the store's
retrieval order rather than breaking by task id (`["z", "y"]` instead of the
claimed `["y", "z"]`). -/
theorem c6_counterexample_null_first_no_id_tiebreak :
    (getCachedFocusQueue [cacheA, cacheB] "2025-01-02" epoch).map
      (fun q => q.focusedTaskIds) = some ["a", "b"] ∧
    ["a", "b"] ≠ ["b", "a"] ∧
    (getCachedFocusQueue [tieZ, tieY] "2025-01-02" epoch).map
      (fun q => q.focusedTaskIds) = some ["z", "y"] ∧
    ["z", "y"] ≠ ["y", "z"] := by decide

/-- C6 (amended): when at least one task has `focusDate` equal to today's
date string, `getCachedFocusQueue` returns the matches sorted stably by
`(focusOrder ?? 0)` ascending — null treated as 0, ties keeping the store's
retrieval order — with reasoning "Cached from earlier today" and
`generatedAt = now`; with no match it returns null. -/
theorem c6_amended_getCached_sorts_null_as_zero (store : List Task)
    (today : String) (now : DateTime) :
    (store.filter (fun t => decide (t.focusDate = some today)) = [] →
      getCachedFocusQueue store today now = Option.none) ∧
    (store.filter (fun t => decide (t.focusDate = some today)) ≠ [] →
      ∃ sorted : List Task,
        sorted.Perm (store.filter (fun t => decide (t.focusDate = some today))) ∧
        sorted.Pairwise (fun a b => focusKey a ≤ focusKey b) ∧
        getCachedFocusQueue store today now =
          some ⟨sorted.map (fun t => t.id), "Cached from earlier today",
            now⟩) := by
  constructor
  · intro h
    simp [getCachedFocusQueue, h]
  · intro h
    refine ⟨sortByKey focusKey
      (store.filter (fun t => decide (t.focusDate = some today))),
      sortByKey_perm _ _, sortByKey_pairwise _ _, ?_⟩
    simp only [getCachedFocusQueue]
    rw [if_neg (fun habs => h (List.isEmpty_iff.mp habs))]

/-- Witness for the amended C6: a store with no row flagged for the day
yields a null cache. -/
theorem c6_amended_getCached_sorts_null_as_zero_witness :
    getCachedFocusQueue [taskA] "2025-01-02" epoch = Option.none :=
  (c6_amended_getCached_sorts_null_as_zero [taskA] "2025-01-02" epoch).1
    (by decide)

/-- Counterexample to C7: with the oracle failing over the active store
`[taskB, taskA]`, the fallback keeps the store's retrieval order (`b` before
`a`), not id order, and the reasoning string is
"AI planning failed. Showing top items.", not
"planning failed, showing top items". -/
theorem c7_counterexample_fallback_order_and_reasoning :
    generateDailyPlan true (Except.error ()) [taskB, taskA] =
      ⟨["b", "a"], "AI planning failed. Showing top items."⟩ ∧
    ["b", "a"] ≠ ["a", "b"] ∧
    "AI planning failed. Showing top items." ≠
      "planning failed, showing top items" := by decide

/-- C7 (amended): when the oracle call fails, `generateAndCacheFocusQueue`
does not fail; it returns the first 5 active tasks in store retrieval order
with reasoning "AI planning failed. Showing top items.", and the fallback
queue goes through exactly the same persistence path as a successful plan of
the same ids. -/
theorem c7_amended_oracle_failure_fallback (store : List Task)
    (today : String) (now : DateTime) :
    generateAndCacheFocusQueue store today true (Except.error ()) now =
      generateAndCacheFocusQueue store today true
        (Except.ok ⟨((store.filter
            (fun t => decide (t.status = TaskStatus.active))).take 5).map
          (fun t => t.id), "AI planning failed. Showing top items."⟩) now ∧
    (generateAndCacheFocusQueue store today true (Except.error ())
        now).2.focusedTaskIds =
      ((store.filter (fun t => decide (t.status = TaskStatus.active))).take
        5).map (fun t => t.id) ∧
    (generateAndCacheFocusQueue store today true (Except.error ())
        now).2.reasoning = "AI planning failed. Showing top items." := by
  have hidem : (store.filter
      (fun t => decide (t.status = TaskStatus.active))).filter
      (fun t => decide (t.status = TaskStatus.active)) =
      store.filter (fun t => decide (t.status = TaskStatus.active)) :=
    List.filter_eq_self.mpr fun a ha => (List.mem_filter.mp ha).2
  have hplan : generateDailyPlan true (Except.error ())
      (store.filter (fun t => decide (t.status = TaskStatus.active))) =
      ⟨((store.filter (fun t => decide (t.status = TaskStatus.active))).take
        5).map (fun t => t.id), "AI planning failed. Showing top items."⟩ := by
    simp only [generateDailyPlan, Bool.not_true, Bool.false_eq_true,
      if_false, hidem]
  refine ⟨?_, ?_, ?_⟩
  · simp only [generateAndCacheFocusQueue]
    rw [hplan]
    rfl
  · show (generateDailyPlan true (Except.error ())
        (store.filter (fun t => decide (t.status = TaskStatus.active)))
      ).focusedTaskIds = _
    rw [hplan]
  · show (generateDailyPlan true (Except.error ())
        (store.filter (fun t => decide (t.status = TaskStatus.active)))
      ).reasoning = _
    rw [hplan]

/-- A completed task still flagged for 2025-01-02 with `focusOrder` 0, as a
prior generation would leave it. -/
def staleTask : Task :=
  { baseTask with id := "x", status := TaskStatus.completed,
                  focusDate := some "2025-01-02", focusOrder := some 0 }

/-- Counterexample to C8: the `TASK_PLAN_DAY` handler does not clear today's
prior focus markings, so after it runs, a stale row from an earlier
generation keeps its focus order and the day's orders are `[0, 0]` — a
duplicate rank and a leftover task, violating the claimed contiguous
ranking. -/
theorem c8_counterexample_planDay_leaves_stale :
    ((((planDayHandler [staleTask, taskA] "2025-01-02" true
        (Except.ok ⟨["a"], "r"⟩)).1).filter
        (fun t => decide (t.focusDate = some "2025-01-02"))).map
      (fun t => t.focusOrder)) = [some 0, some 0] ∧
    ¬ (((((planDayHandler [staleTask, taskA] "2025-01-02" true
        (Except.ok ⟨["a"], "r"⟩)).1).filter
        (fun t => decide (t.focusDate = some "2025-01-02"))).map
      (fun t => t.focusOrder)).Nodup) := by decide

/-- C8 (amended): after `generateAndCacheFocusQueue` (the path used by
regeneration), the tasks flagged for today carry focus orders that are a
permutation of `0 .. N-1` with no duplicates, and no task outside the plan
stays flagged, because this path clears all of today's markings before
rewriting; the `TASK_PLAN_DAY` handler lacks the clear step and does not
guarantee this. -/
theorem c8_amended_contiguous_after_generate (store : List Task)
    (today : String) (ids : List String) (reason : String) (now : DateTime)
    (hids : ids.Nodup) (hstore : (store.map (fun t => t.id)).Nodup)
    (hex : ∀ taskId ∈ ids, ∃ t ∈ store, t.id = taskId) :
    ((((generateAndCacheFocusQueue store today true (Except.ok ⟨ids, reason⟩)
        now).1).filter (fun t => decide (t.focusDate = some today))).map
      (fun t => t.focusOrder)).Perm
      ((List.range ids.length).map
        (fun j => (some (Int.ofNat j) : Option Int))) ∧
    (∀ t ∈ (generateAndCacheFocusQueue store today true
        (Except.ok ⟨ids, reason⟩) now).1,
      t.focusDate = some today → t.id ∈ ids) := by
  obtain ⟨_, _, h3⟩ := focusWrite_spec store today ids hids hstore hex
  have hstore1 : (generateAndCacheFocusQueue store today true
      (Except.ok ⟨ids, reason⟩) now).1 =
      applyFocusUpdates today (clearFocusForToday today store) ids 0 := rfl
  refine ⟨by rw [hstore1]; exact h3, ?_⟩
  intro t ht hfd
  rw [hstore1, store2_eq_map] at ht
  obtain ⟨s, _, rfl⟩ := List.mem_map.mp ht
  have hmem := (G_focusDate_iff today ids s).mp hfd
  rw [applyFocusFn_id, clearFocus_elem_id]
  exact hmem

/-- Witness for the amended C8 at the two-task store and plan `["b", "a"]`. -/
theorem c8_amended_contiguous_after_generate_witness :
    ((((generateAndCacheFocusQueue [taskA, taskB] "2025-01-02" true
        (Except.ok ⟨["b", "a"], "r"⟩) epoch).1).filter
        (fun t => decide (t.focusDate = some "2025-01-02"))).map
      (fun t => t.focusOrder)).Perm
      ((List.range 2).map (fun j => (some (Int.ofNat j) : Option Int))) ∧
    (∀ t ∈ (generateAndCacheFocusQueue [taskA, taskB] "2025-01-02" true
        (Except.ok ⟨["b", "a"], "r"⟩) epoch).1,
      t.focusDate = some "2025-01-02" → t.id ∈ ["b", "a"]) :=
  c8_amended_contiguous_after_generate [taskA, taskB] "2025-01-02"
    ["b", "a"] "r" epoch (by decide) (by decide) (by decide)

/-- C10: `generateAndCacheFocusQueue` returns the oracle's id list verbatim
even when some ids match no stored task; every task persisted with today's
focus date has its id both in the plan and in the store, so the persisted
set can be a strict subset of the returned queue — concretely, planning
`["a", "ghost"]` over a store holding only `a` returns both ids but a
same-day `getCachedFocusQueue` serves only `["a"]`. -/
theorem c10_unknown_plan_ids_not_persisted (store : List Task)
    (today : String) (ids : List String) (reason : String) (now : DateTime) :
    (generateAndCacheFocusQueue store today true (Except.ok ⟨ids, reason⟩)
      now).2.focusedTaskIds = ids ∧
    (∀ t ∈ (generateAndCacheFocusQueue store today true
        (Except.ok ⟨ids, reason⟩) now).1,
      t.focusDate = some today →
        t.id ∈ ids ∧ t.id ∈ store.map (fun s => s.id)) ∧
    (generateAndCacheFocusQueue [taskA] "2025-01-02" true
      (Except.ok ⟨["a", "ghost"], "r"⟩) epoch).2.focusedTaskIds =
      ["a", "ghost"] ∧
    getCachedFocusQueue
        (generateAndCacheFocusQueue [taskA] "2025-01-02" true
          (Except.ok ⟨["a", "ghost"], "r"⟩) epoch).1 "2025-01-02" epoch =
      some ⟨["a"], "Cached from earlier today", epoch⟩ := by
  refine ⟨rfl, ?_, rfl, by decide⟩
  intro t ht hfd
  rw [show (generateAndCacheFocusQueue store today true
      (Except.ok ⟨ids, reason⟩) now).1 =
      applyFocusUpdates today (clearFocusForToday today store) ids 0 from rfl,
    store2_eq_map] at ht
  obtain ⟨s, hs, rfl⟩ := List.mem_map.mp ht
  have hmem := (G_focusDate_iff today ids s).mp hfd
  rw [applyFocusFn_id, clearFocus_elem_id]
  exact ⟨hmem, List.mem_map.mpr ⟨s, hs, rfl⟩⟩

/-- The row task `a` becomes after being planned first for 2025-01-02. -/
def persistedA : Task :=
  { taskA with focusDate := some "2025-01-02", focusOrder := some 0 }

/-- Witness for C10: the row persisted for task `a` is flagged for the day
and its id is in both the plan and the store. -/
theorem c10_unknown_plan_ids_not_persisted_witness :
    persistedA.id ∈ (["a", "ghost"] : List String) ∧
    persistedA.id ∈ [taskA].map (fun s => s.id) :=
  (c10_unknown_plan_ids_not_persisted [taskA] "2025-01-02" ["a", "ghost"] "r"
    epoch).2.1 persistedA (by decide) (by decide)

end TaskManager
